import Mathlib

/-!
# internal/private: blob-transfer interfaces

A verification development over `internal/private/private.go`.

The Go file declares the option structs, the chunk type, the
`BadPartialRequestError` type with its `Error` method, and three interfaces
(`ImageDestination`, `ImageSourceSeekable`, `ImageDestinationPartial`).
The structs and the `Error` method are embedded directly.  The interfaces have
no implementation in this file; where a property is about what an
implementation does, the behaviour is modelled from the written specification
and the definition says so.
-/

namespace Private

/-! ## Data declared in `private.go` -/

/-- The number of values of a Go `uint64`. -/
def uint64Size : Nat := 18446744073709551616

/-- Modelled from the spec: `types.BlobInfo` is declared in package `types`,
which is imported by `private.go`.  The spec gives it a digest, a size in
bytes (`-1` when unknown) and a media type. -/
structure BlobInfo where
  Digest : String
  Size : Int
  MediaType : String
deriving DecidableEq, Repr

/-- Modelled from the spec: `types.BlobInfoCache` is declared in package
`types`.  The spec gives it one query, the known locations of a digest, which
is empty on a miss. -/
structure BlobInfoCache where
  knownLocations : String → List String

/-- `PutBlobOptions` of `private.go`.  `Cache` is an interface value and
`LayerIndex *int` a pointer, both absent when nil.  Every field has Go's zero
value as its default, which is what a composite literal gives a field it does
not name. -/
structure PutBlobOptions where
  Cache : Option BlobInfoCache := none
  IsConfig : Bool := false
  EmptyLayer : Bool := false
  LayerIndex : Option Int := none

/-- `TryReusingBlobOptions` of `private.go`, its fields defaulting to Go's
zero values.  `SrcRef reference.Named` is an interface value, absent when nil;
a named reference is kept as its string. -/
structure TryReusingBlobOptions where
  Cache : Option BlobInfoCache := none
  CanSubstitute : Bool := false
  EmptyLayer : Bool := false
  LayerIndex : Option Int := none
  SrcRef : Option String := none

/-- `ImageSourceChunk` of `private.go`: two `uint64` fields.  The fields are
natural numbers; `ImageSourceChunk.inRange` says that they are `uint64`
values. -/
structure ImageSourceChunk where
  Offset : Nat
  Length : Nat
deriving DecidableEq, Repr

/-- Both fields of the chunk are values of a `uint64`. -/
def ImageSourceChunk.inRange (c : ImageSourceChunk) : Prop :=
  c.Offset < uint64Size ∧ c.Length < uint64Size

instance (c : ImageSourceChunk) : Decidable c.inRange := by
  unfold ImageSourceChunk.inRange
  exact inferInstance

/-- `BadPartialRequestError` of `private.go`. -/
structure BadPartialRequestError where
  Status : String
deriving DecidableEq, Repr

/-- `func (e BadPartialRequestError) Error() string`. -/
def BadPartialRequestError.Error (e : BadPartialRequestError) : String :=
  e.Status

/-! ## Chunks as byte ranges -/

/-- The byte at position `x` lies in the half-open range `[Offset, Offset + Length)`
the chunk denotes. -/
def ImageSourceChunk.covers (c : ImageSourceChunk) (x : Nat) : Prop :=
  c.Offset ≤ x ∧ x < c.Offset + c.Length

instance (c : ImageSourceChunk) (x : Nat) : Decidable (c.covers x) := by
  unfold ImageSourceChunk.covers
  exact inferInstance

/-- The value of Go's `error` interface as far as this package is concerned:
a `BadPartialRequestError`, or some other error with its message. -/
inductive GoError where
  | badPartialRequest (e : BadPartialRequestError)
  | other (msg : String)
deriving DecidableEq, Repr

/-- What `GetBlobAt` hands back, `(chan io.ReadCloser, chan error, error)`:
a channel is the list of its arrivals in order, a stream is the bytes read
from it. -/
structure GetBlobAtResult where
  streams : List (List Nat)
  errs : List String
  err : Option GoError

/-- The interface `ImageSourceSeekable` of `private.go`: a value with the one
method `GetBlobAt(ctx, info, chunks)`.  A call is an effect of the source
(it performs I/O), so the method lives in a monad `m`, which a caller cannot
look into: all it can do with the source is call the method. -/
structure ImageSourceSeekable (m : Type → Type) where
  GetBlobAt : BlobInfo → List ImageSourceChunk → m GetBlobAtResult

/-- A computation together with the `GetBlobAt` calls made while it ran, in
order, each with the blob info and the chunk list it was given. -/
structure Recorded (α : Type) where
  value : α
  calls : List (BlobInfo × List ImageSourceChunk)

instance : Monad Recorded where
  pure a := { value := a, calls := [] }
  bind x f := { value := (f x.value).value, calls := x.calls ++ (f x.value).calls }

/-- A seekable source that answers as `answer` does and records every call it
receives. -/
def recordingSource (answer : BlobInfo → List ImageSourceChunk → GetBlobAtResult) :
    ImageSourceSeekable Recorded :=
  { GetBlobAt := fun info chunks => { value := answer info chunks, calls := [(info, chunks)] } }

/-! ## The partial destination writer -/

/-- Modelled from the spec: removing the stored range `r` from the missing
chunk `c`, inside `PutBlobPartial`, whose implementations are not in
`private.go`.  A stored range that is empty or lies apart from `c` leaves `c`
as it is; otherwise what remains of `c` is the part before `r` and the part
after `r`, each kept when it is not empty. -/
def subtractRange (c r : ImageSourceChunk) : List ImageSourceChunk :=
  if r.Length = 0 ∨ r.Offset + r.Length ≤ c.Offset ∨ c.Offset + c.Length ≤ r.Offset then
    [c]
  else
    (if c.Offset < r.Offset then [⟨c.Offset, r.Offset - c.Offset⟩] else []) ++
    (if r.Offset + r.Length < c.Offset + c.Length then
      [⟨r.Offset + r.Length, c.Offset + c.Length - (r.Offset + r.Length)⟩]
    else [])

/-- Modelled from the spec: removing one stored range from every chunk of the
missing list built so far, in order. -/
def subtractAll (r : ImageSourceChunk) : List ImageSourceChunk → List ImageSourceChunk
  | [] => []
  | c :: cs => subtractRange c r ++ subtractAll r cs

/-- Modelled from the spec: step 1 of `PutBlobPartial`, the missing chunk set
of a blob of `size` bytes of which the ranges `stored` are present: the whole
range `[0, size)` with every stored range removed in turn. -/
def missingChunks (size : Nat) (stored : List ImageSourceChunk) : List ImageSourceChunk :=
  stored.foldl (fun acc r => subtractAll r acc) (if size = 0 then [] else [⟨0, size⟩])

/-- A chunk list in the form the claim describes, within a blob of `size`
bytes: every chunk ends before the next one starts, with at least one byte in
between (sorted ascending, no overlap, no two chunks adjacent), no chunk is
empty, and every chunk ends within the blob. -/
def WellSeparated (size : Nat) (chunks : List ImageSourceChunk) : Prop :=
  chunks.Pairwise (fun a b => a.Offset + a.Length < b.Offset) ∧
  ∀ c ∈ chunks, 0 < c.Length ∧ c.Offset + c.Length ≤ size

/-- Modelled from the spec: the destination's record of one blob: the
`BlobInfo` it keeps for the blob and the pieces already stored, each an offset
with its bytes. -/
structure StoredBlob where
  info : BlobInfo
  pieces : List (Nat × List Nat)

/-- Modelled from the spec: the destination's own record behind
`PutBlobPartial`: the blobs it holds, wholly or in part, and the content hash
it verifies with. -/
structure PartialStore where
  blobs : List StoredBlob
  digestOf : List Nat → String

/-- Modelled from the spec: the destination's record for a digest, the first
blob it keeps under that digest. -/
def PartialStore.lookup (dest : PartialStore) (digest : String) : Option StoredBlob :=
  dest.blobs.find? (fun b => decide (b.info.Digest = digest))

/-- Modelled from the spec: the record `PutBlobPartial` works on: the one the
destination keeps for the digest, or, for a blob it has no record of, the
announced info with no pieces. -/
def PartialStore.current (dest : PartialStore) (srcInfo : BlobInfo) : StoredBlob :=
  (dest.lookup srcInfo.Digest).getD { info := srcInfo, pieces := [] }

/-- The largest size a `BlobInfo` can announce: `Size` is an `int64`. -/
def maxBlobSize : Nat := 9223372036854775807

/-- Modelled from the spec: the range of byte positions a blob may occupy as
far as its `BlobInfo` tells: `[0, Size)` when the size is known, and every
position up to the largest size when it is unknown (`-1`). -/
def blobExtent (info : BlobInfo) : Nat :=
  if 0 ≤ info.Size then info.Size.toNat else maxBlobSize

/-- Modelled from the spec: the byte ranges the pieces of the destination's
record occupy. -/
def storedRanges (pieces : List (Nat × List Nat)) : List ImageSourceChunk :=
  pieces.map (fun p => ⟨p.1, p.2.length⟩)

/-- Modelled from the spec: the byte the destination's storage holds at
position `x`: that of the first piece whose range contains `x`, and `0` where
no piece does. -/
def byteAt (pieces : List (Nat × List Nat)) (x : Nat) : Nat :=
  match pieces.find? (fun p => decide (p.1 ≤ x ∧ x < p.1 + p.2.length)) with
  | some p => p.2.getD (x - p.1) 0
  | none => 0

/-- Modelled from the spec: the assembled content, the first `size` bytes the
destination's storage holds. -/
def assemble (size : Nat) (pieces : List (Nat × List Nat)) : List Nat :=
  (List.range size).map (byteAt pieces)

/-- Modelled from the spec: where the content the destination holds for a blob
ends: the first byte position, within `extent`, that no piece covers. -/
def contentEnd (extent : Nat) (pieces : List (Nat × List Nat)) : Nat :=
  match missingChunks extent (storedRanges pieces) with
  | [] => extent
  | c :: _ => c.Offset

/-- What a `PutBlobPartial` call leaves behind: its return values
`(types.BlobInfo, error)` and the destination's record of the blob afterwards. -/
structure PutBlobPartialResult where
  info : Except GoError BlobInfo
  blob : StoredBlob

/-- Modelled from the spec: steps 3 and 4 of `PutBlobPartial`, what the
destination does with the answer of `GetBlobAt`.  Every stream is written at
the offset of its chunk.  The size of the blob is the announced one, or, when
that was unknown, the length of the content now held.  The digest of the
assembled content is compared with the one asked for; on success the blob is
kept with its size filled in.  An immediate error, an error arrival, a chunk
without a stream or a digest mismatch fails the call, and the record stays as
it was before the call. -/
def storeArrivals (dest : PartialStore) (srcInfo : BlobInfo) (current : StoredBlob)
    (missing : List ImageSourceChunk) (r : GetBlobAtResult) : PutBlobPartialResult :=
  match r.err with
  | some e => { info := .error e, blob := current }
  | none =>
    let written := current.pieces ++ List.zip (missing.map (fun c => c.Offset)) r.streams
    if !r.errs.isEmpty then
      { info := .error (GoError.other (r.errs.headD "")), blob := current }
    else if r.streams.length ≠ missing.length then
      { info := .error (GoError.other "a chunk gave no stream"), blob := current }
    else
      let size := if 0 ≤ srcInfo.Size then srcInfo.Size.toNat
        else contentEnd (blobExtent srcInfo) written
      let complete : BlobInfo := { srcInfo with Size := (size : Int) }
      if dest.digestOf (assemble size written) ≠ srcInfo.Digest then
        { info := .error (GoError.other "digest mismatch"), blob := current }
      else
        { info := .ok complete, blob := { info := complete, pieces := written } }

/-- Modelled from the spec: `ImageDestinationPartial.PutBlobPartial`, an
interface method without implementation in `private.go`, after the four steps
the spec gives.  (1) The destination consults its record for the digest (a
blob it has no record of starts with the announced info and no pieces); the
missing chunk set is the complement of the stored ranges within the extent of
the blob.  (2) When nothing is missing the call returns, at once, the
`BlobInfo` the destination keeps for the blob, and the source is not called.
(3), (4) Otherwise `GetBlobAt` is called once with the missing chunk set and
its answer is handled by `storeArrivals`. -/
def PutBlobPartial {m : Type → Type} [Monad m] (dest : PartialStore)
    (stream : ImageSourceSeekable m) (srcInfo : BlobInfo) (_cache : BlobInfoCache) :
    m PutBlobPartialResult :=
  let current := dest.current srcInfo
  let missing := missingChunks (blobExtent srcInfo) (storedRanges current.pieces)
  if missing.isEmpty then
    pure { info := .ok current.info, blob := current }
  else
    stream.GetBlobAt srcInfo missing >>= fun r =>
      pure (storeArrivals dest srcInfo current missing r)

/-! ## Example values -/

/-- A blob of three bytes. -/
def exampleInfo : BlobInfo :=
  { Digest := "sha256:0", Size := 3, MediaType := "" }

/-- A destination that holds the three bytes `7, 8, 9` of the example blob,
kept with a media type of its own. -/
def exampleStore : PartialStore :=
  { blobs := [{ info := { Digest := "sha256:0", Size := 3, MediaType := "layer" },
                pieces := [(0, [7, 8, 9])] }],
    digestOf := fun bytes => toString bytes }

/-- The answer of a source that refuses every request. -/
def refuseAll (_info : BlobInfo) (_chunks : List ImageSourceChunk) : GetBlobAtResult :=
  { streams := [], errs := [], err := some (GoError.badPartialRequest ⟨"400 Bad Request"⟩) }

/-- The answer of a source whose blobs hold the byte `1` everywhere: one
stream per chunk, of the length asked for. -/
def answerOnes (_info : BlobInfo) (chunks : List ImageSourceChunk) : GetBlobAtResult :=
  { streams := chunks.map (fun c => List.replicate c.Length 1), errs := [], err := none }

/-- A blob of 1000 bytes. -/
def info1000 : BlobInfo :=
  { Digest := "sha256:1", Size := 1000, MediaType := "" }

/-- A destination that holds the bytes `[0, 200)` and `[500, 1000)` of the
1000-byte blob, so that only `[200, 500)` is missing. -/
def store1000 : PartialStore :=
  { blobs := [{ info := info1000,
                pieces := [(0, List.replicate 200 1), (500, List.replicate 500 1)] }],
    digestOf := fun _ => "sha256:1" }

/-- A cache that knows no location. -/
def emptyCache : BlobInfoCache :=
  { knownLocations := fun _ => [] }

end Private

/-! ## Theorems -/

namespace Private

/-! ### The missing chunk set -/

theorem subtractRange_covers (c r : ImageSourceChunk) (x : Nat) :
    (∃ d ∈ subtractRange c r, d.covers x) ↔ (c.covers x ∧ ¬ r.covers x) := by
  unfold subtractRange
  by_cases h : r.Length = 0 ∨ r.Offset + r.Length ≤ c.Offset ∨ c.Offset + c.Length ≤ r.Offset
  · simp only [h, if_true, List.mem_singleton, exists_eq_left, ImageSourceChunk.covers]
    omega
  · by_cases h1 : c.Offset < r.Offset <;>
      by_cases h2 : r.Offset + r.Length < c.Offset + c.Length <;>
      simp [h, h1, h2, ImageSourceChunk.covers] <;> omega

theorem subtractRange_bounds (c r d : ImageSourceChunk) (hd : d ∈ subtractRange c r)
    (hc : 0 < c.Length) :
    c.Offset ≤ d.Offset ∧ d.Offset + d.Length ≤ c.Offset + c.Length ∧ 0 < d.Length := by
  unfold subtractRange at hd
  by_cases h : r.Length = 0 ∨ r.Offset + r.Length ≤ c.Offset ∨ c.Offset + c.Length ≤ r.Offset
  · simp only [h, if_true, List.mem_singleton] at hd
    subst hd
    omega
  · by_cases h1 : c.Offset < r.Offset <;>
      by_cases h2 : r.Offset + r.Length < c.Offset + c.Length <;>
      simp [h, h1, h2] at hd
    · rcases hd with hd | hd <;> subst hd <;> simp <;> omega
    · subst hd; simp; omega
    · subst hd; simp; omega

theorem subtractRange_separated (c r : ImageSourceChunk) :
    (subtractRange c r).Pairwise (fun a b => a.Offset + a.Length < b.Offset) := by
  unfold subtractRange
  by_cases h : r.Length = 0 ∨ r.Offset + r.Length ≤ c.Offset ∨ c.Offset + c.Length ≤ r.Offset
  · simp [h]
  · by_cases h1 : c.Offset < r.Offset <;>
      by_cases h2 : r.Offset + r.Length < c.Offset + c.Length <;>
      simp [h, h1, h2]
    omega

theorem mem_subtractAll (r d : ImageSourceChunk) (cs : List ImageSourceChunk) :
    d ∈ subtractAll r cs ↔ ∃ c ∈ cs, d ∈ subtractRange c r := by
  induction cs with
  | nil => simp [subtractAll]
  | cons c cs ih => simp [subtractAll, ih]

theorem subtractAll_covers (r : ImageSourceChunk) (cs : List ImageSourceChunk) (x : Nat) :
    (∃ d ∈ subtractAll r cs, d.covers x) ↔ ((∃ c ∈ cs, c.covers x) ∧ ¬ r.covers x) := by
  constructor
  · rintro ⟨d, hd, hx⟩
    obtain ⟨c, hc, hdc⟩ := (mem_subtractAll r d cs).1 hd
    have := (subtractRange_covers c r x).1 ⟨d, hdc, hx⟩
    exact ⟨⟨c, hc, this.1⟩, this.2⟩
  · rintro ⟨⟨c, hc, hx⟩, hr⟩
    obtain ⟨d, hd, hdx⟩ := (subtractRange_covers c r x).2 ⟨hx, hr⟩
    exact ⟨d, (mem_subtractAll r d cs).2 ⟨c, hc, hd⟩, hdx⟩

theorem subtractAll_separated (size : Nat) (r : ImageSourceChunk) (cs : List ImageSourceChunk)
    (hs : WellSeparated size cs) : WellSeparated size (subtractAll r cs) := by
  induction cs with
  | nil => simpa [subtractAll] using hs
  | cons c cs ih =>
    obtain ⟨hpw, hall⟩ := hs
    rw [List.pairwise_cons] at hpw
    have hc := hall c (List.mem_cons_self _ _)
    have ih' := ih ⟨hpw.2, fun d hd => hall d (List.mem_cons_of_mem _ hd)⟩
    refine ⟨?_, ?_⟩
    · simp only [subtractAll]
      rw [List.pairwise_append]
      refine ⟨subtractRange_separated c r, ih'.1, fun a ha b hb => ?_⟩
      obtain ⟨c', hc', hb'⟩ := (mem_subtractAll r b cs).1 hb
      have h1 := subtractRange_bounds c r a ha hc.1
      have h2 := subtractRange_bounds c' r b hb' (hall c' (List.mem_cons_of_mem _ hc')).1
      have h3 := hpw.1 c' hc'
      omega
    · intro d hd
      simp only [subtractAll, List.mem_append] at hd
      rcases hd with hd | hd
      · have h1 := subtractRange_bounds c r d hd hc.1
        omega
      · exact ih'.2 d hd

theorem foldl_subtractAll_covers (stored : List ImageSourceChunk) (x : Nat) :
    ∀ acc : List ImageSourceChunk,
      (∃ d ∈ stored.foldl (fun acc r => subtractAll r acc) acc, d.covers x) ↔
        ((∃ c ∈ acc, c.covers x) ∧ ∀ r ∈ stored, ¬ r.covers x) := by
  induction stored with
  | nil => intro acc; simp
  | cons r rs ih =>
    intro acc
    rw [List.foldl_cons, ih, subtractAll_covers]
    simp only [List.mem_cons, forall_eq_or_imp]
    tauto

theorem foldl_subtractAll_separated (size : Nat) (stored : List ImageSourceChunk) :
    ∀ acc : List ImageSourceChunk, WellSeparated size acc →
      WellSeparated size (stored.foldl (fun acc r => subtractAll r acc) acc) := by
  induction stored with
  | nil => intro acc h; simpa using h
  | cons r rs ih =>
    intro acc h
    rw [List.foldl_cons]
    exact ih _ (subtractAll_separated size r acc h)

theorem missingChunks_covers (size : Nat) (stored : List ImageSourceChunk) (x : Nat) :
    (∃ c ∈ missingChunks size stored, c.covers x) ↔
      (x < size ∧ ∀ r ∈ stored, ¬ r.covers x) := by
  unfold missingChunks
  rw [foldl_subtractAll_covers]
  by_cases h : size = 0
  · simp [h]
  · simp [h, ImageSourceChunk.covers]

theorem missingChunks_separated (size : Nat) (stored : List ImageSourceChunk) :
    WellSeparated size (missingChunks size stored) := by
  unfold missingChunks
  apply foldl_subtractAll_separated
  by_cases h : size = 0
  · simp [h, WellSeparated]
  · simp [h, WellSeparated]
    omega

theorem WellSeparated.apart (size : Nat) (m : List ImageSourceChunk)
    (hs : WellSeparated size m) (c c' : ImageSourceChunk) (hc : c ∈ m) (hc' : c' ∈ m) :
    c = c' ∨ c.Offset + c.Length < c'.Offset ∨ c'.Offset + c'.Length < c.Offset := by
  have hsym : Symmetric (fun a b : ImageSourceChunk =>
      a = b ∨ a.Offset + a.Length < b.Offset ∨ b.Offset + b.Length < a.Offset) := by
    intro a b h
    rcases h with h | h | h
    · exact Or.inl h.symm
    · exact Or.inr (Or.inr h)
    · exact Or.inr (Or.inl h)
  have hpw : m.Pairwise (fun a b : ImageSourceChunk =>
      a = b ∨ a.Offset + a.Length < b.Offset ∨ b.Offset + b.Length < a.Offset) :=
    hs.1.imp (fun {a b} h => Or.inr (Or.inl h))
  exact List.Pairwise.forall_of_forall hsym (fun x _ => Or.inl rfl) hpw hc hc'

theorem WellSeparated.eq_singleton (size a b : Nat) (m : List ImageSourceChunk)
    (hs : WellSeparated size m) (hab : a < b)
    (hcov : ∀ x, (∃ c ∈ m, c.covers x) ↔ (a ≤ x ∧ x < b)) :
    m = [⟨a, b - a⟩] := by
  have key : ∀ c ∈ m, c = (⟨a, b - a⟩ : ImageSourceChunk) := by
    intro c hc
    have hpos := (hs.2 c hc).1
    have h1 := (hcov c.Offset).1 ⟨c, hc, le_refl _, by omega⟩
    have h2 := (hcov (c.Offset + c.Length - 1)).1 ⟨c, hc, by omega, by omega⟩
    have hO : c.Offset = a := by
      by_contra hne
      obtain ⟨c', hc', h3, h4⟩ := (hcov (c.Offset - 1)).2 ⟨by omega, by omega⟩
      rcases WellSeparated.apart size m hs c c' hc hc' with h | h | h
      · subst h; omega
      · omega
      · omega
    have hE : c.Offset + c.Length = b := by
      by_contra hne
      obtain ⟨c', hc', h3, h4⟩ := (hcov (c.Offset + c.Length)).2 ⟨by omega, by omega⟩
      rcases WellSeparated.apart size m hs c c' hc hc' with h | h | h
      · subst h; omega
      · omega
      · omega
    cases c with
    | mk o l =>
      simp only at hO hE
      subst hO
      congr
      omega
  cases m with
  | nil =>
    have := (hcov a).2 ⟨le_refl _, hab⟩
    simp at this
  | cons c cs =>
    have hc := key c (List.mem_cons_self _ _)
    cases cs with
    | nil => rw [hc]
    | cons c' cs' =>
      exfalso
      have hc' := key c' (List.mem_cons_of_mem _ (List.mem_cons_self _ _))
      have hgap := (List.pairwise_cons.1 hs.1).1 c' (List.mem_cons_self _ _)
      rw [hc, hc'] at hgap
      simp at hgap

/-! ### Calls recorded by a source -/

theorem Recorded.calls_pure {α : Type} (a : α) :
    (pure a : Recorded α).calls = [] := rfl

theorem Recorded.value_pure {α : Type} (a : α) :
    (pure a : Recorded α).value = a := rfl

theorem Recorded.calls_bind {α β : Type} (x : Recorded α) (f : α → Recorded β) :
    (x >>= f).calls = x.calls ++ (f x.value).calls := rfl

theorem Recorded.value_bind {α β : Type} (x : Recorded α) (f : α → Recorded β) :
    (x >>= f).value = (f x.value).value := rfl

theorem PartialStore.lookup_digest (dest : PartialStore) (digest : String) (r : StoredBlob)
    (h : dest.lookup digest = some r) : r.info.Digest = digest := by
  unfold PartialStore.lookup at h
  have := List.find?_some h
  simpa using this

theorem blobExtent_of_known (info : BlobInfo) (h : 0 ≤ info.Size) :
    blobExtent info = info.Size.toNat := by
  simp [blobExtent, h]

theorem PutBlobPartial_recorded_calls (dest : PartialStore)
    (answer : BlobInfo → List ImageSourceChunk → GetBlobAtResult)
    (srcInfo : BlobInfo) (cache : BlobInfoCache) :
    (PutBlobPartial dest (recordingSource answer) srcInfo cache).calls =
      (if (missingChunks (blobExtent srcInfo)
            (storedRanges (dest.current srcInfo).pieces)).isEmpty then []
       else [(srcInfo, missingChunks (blobExtent srcInfo)
            (storedRanges (dest.current srcInfo).pieces))]) := by
  unfold PutBlobPartial
  simp only
  split_ifs with h
  · rfl
  · rw [Recorded.calls_bind]
    simp [recordingSource, Recorded.calls_pure]

theorem missingChunks_eq_nil_of_held (size : Nat) (stored : List ImageSourceChunk)
    (hheld : ∀ x, x < size → ∃ c ∈ stored, c.covers x) :
    missingChunks size stored = [] := by
  rw [List.eq_nil_iff_forall_not_mem]
  intro c hc
  have hpos := ((missingChunks_separated size stored).2 c hc).1
  have hx := (missingChunks_covers size stored c.Offset).1 ⟨c, hc, le_refl _, by omega⟩
  obtain ⟨r, hr, hrx⟩ := hheld c.Offset hx.1
  exact hx.2 r hr hrx

/-- C5: when the destination keeps a record of the blob, the size of the blob
is known and every byte of `[0, size)` lies in a stored piece, the missing
chunk set `PutBlobPartial` computes is empty; a source that records its calls
has received none when `PutBlobPartial` returns, whatever it would have
answered; the value returned is the `BlobInfo` the destination keeps for the
blob, without error, and the record is left as it was.  In any monad the call
is the pure return of that value: it does nothing with the source.  The
`BlobInfo` returned is the one kept under the digest asked for. -/
theorem PutBlobPartial_nothing_missing (dest : PartialStore) (srcInfo : BlobInfo)
    (cache : BlobInfoCache) (r : StoredBlob)
    (hrec : dest.lookup srcInfo.Digest = some r)
    (hsize : 0 ≤ srcInfo.Size)
    (hheld : ∀ x, x < srcInfo.Size.toNat →
      ∃ p ∈ r.pieces, p.1 ≤ x ∧ x < p.1 + p.2.length) :
    missingChunks srcInfo.Size.toNat
      (r.pieces.map (fun p => (⟨p.1, p.2.length⟩ : ImageSourceChunk))) = [] ∧
    (∀ answer : BlobInfo → List ImageSourceChunk → GetBlobAtResult,
      (PutBlobPartial dest (recordingSource answer) srcInfo cache).calls = [] ∧
      (PutBlobPartial dest (recordingSource answer) srcInfo cache).value.info =
        Except.ok r.info ∧
      (PutBlobPartial dest (recordingSource answer) srcInfo cache).value.blob = r) ∧
    (∀ (m : Type → Type) [Monad m] (stream : ImageSourceSeekable m),
      PutBlobPartial dest stream srcInfo cache = pure { info := Except.ok r.info, blob := r }) ∧
    r.info.Digest = srcInfo.Digest := by
  have hm : missingChunks srcInfo.Size.toNat (storedRanges r.pieces) = [] := by
    apply missingChunks_eq_nil_of_held
    intro x hx
    obtain ⟨p, hp, h1, h2⟩ := hheld x hx
    exact ⟨⟨p.1, p.2.length⟩, List.mem_map.2 ⟨p, hp, rfl⟩, h1, h2⟩
  have hcur : dest.current srcInfo = r := by simp [PartialStore.current, hrec]
  have hpure : ∀ (m : Type → Type) [Monad m] (stream : ImageSourceSeekable m),
      PutBlobPartial dest stream srcInfo cache =
        pure { info := Except.ok r.info, blob := r } := by
    intro m _ stream
    simp [PutBlobPartial, hcur, blobExtent_of_known srcInfo hsize, hm]
  refine ⟨hm, fun answer => ?_, hpure, PartialStore.lookup_digest dest _ r hrec⟩
  rw [hpure Recorded (recordingSource answer)]
  exact ⟨rfl, rfl, rfl⟩

/-- Witness of C5: the example destination keeps the example blob with all
three of its bytes, so the recording source receives no call and the `BlobInfo`
the destination keeps is returned. -/
theorem PutBlobPartial_nothing_missing_witness :
    (exampleStore.lookup exampleInfo.Digest = some
      { info := { Digest := "sha256:0", Size := 3, MediaType := "layer" },
        pieces := [(0, [7, 8, 9])] }) ∧
    (0 ≤ exampleInfo.Size) ∧
    (∀ x, x < exampleInfo.Size.toNat →
      ∃ p ∈ [((0 : Nat), [(7 : Nat), 8, 9])], p.1 ≤ x ∧ x < p.1 + p.2.length) ∧
    (PutBlobPartial exampleStore (recordingSource refuseAll) exampleInfo emptyCache).calls = [] ∧
    (PutBlobPartial exampleStore (recordingSource refuseAll) exampleInfo emptyCache).value.info =
      Except.ok { Digest := "sha256:0", Size := 3, MediaType := "layer" } :=
  have hrec : exampleStore.lookup exampleInfo.Digest = some
      { info := { Digest := "sha256:0", Size := 3, MediaType := "layer" },
        pieces := [(0, [7, 8, 9])] } := by
    simp [PartialStore.lookup, exampleStore, exampleInfo]
  have hsize : 0 ≤ exampleInfo.Size := by simp [exampleInfo]
  have hheld : ∀ x, x < exampleInfo.Size.toNat →
      ∃ p ∈ [((0 : Nat), [(7 : Nat), 8, 9])], p.1 ≤ x ∧ x < p.1 + p.2.length := by
    intro x hx
    simp only [exampleInfo, Int.toNat_ofNat] at hx
    exact ⟨(0, [7, 8, 9]), List.mem_singleton.2 rfl, Nat.zero_le _, by simpa using hx⟩
  have h := PutBlobPartial_nothing_missing exampleStore exampleInfo emptyCache _ hrec hsize hheld
  ⟨hrec, hsize, hheld, (h.2.1 refuseAll).1, (h.2.1 refuseAll).2.1⟩

/-- C6: for every blob size and every list of stored byte ranges, the missing
chunk set covers exactly the bytes of `[0, size)` that no stored range covers;
each of its chunks ends at least one byte before the next one starts (sorted
ascending by offset, no overlap, adjacent ranges merged), none is empty and all
lie within `[0, size)`.  For a blob of known size, with the missing chunk set
taken over the ranges of the pieces the destination holds: a source that
records its calls has received, when `PutBlobPartial` returns, exactly one
call, with the blob info and that list, when the list is not empty, and no call
otherwise; and in any monad, when the list is not empty, `PutBlobPartial` is
the one call of `GetBlobAt` with that list followed by the handling of its
answer.  For size 1000, whenever the bytes not stored are exactly `[200, 500)`
the list is the single chunk `{Offset: 200, Length: 300}`, and that is the one
call the source records for the example destination. -/
theorem PutBlobPartial_requests_complement :
    (∀ (size : Nat) (stored : List ImageSourceChunk),
      (∀ x, (∃ c ∈ missingChunks size stored, c.covers x) ↔
        (x < size ∧ ∀ r ∈ stored, ¬ r.covers x)) ∧
      (missingChunks size stored).Pairwise (fun a b => a.Offset + a.Length < b.Offset) ∧
      (∀ c ∈ missingChunks size stored, 0 < c.Length ∧ c.Offset + c.Length ≤ size)) ∧
    (∀ (dest : PartialStore) (answer : BlobInfo → List ImageSourceChunk → GetBlobAtResult)
        (srcInfo : BlobInfo) (cache : BlobInfoCache), 0 ≤ srcInfo.Size →
      (PutBlobPartial dest (recordingSource answer) srcInfo cache).calls =
        (if (missingChunks srcInfo.Size.toNat
              ((dest.current srcInfo).pieces.map
                (fun p => (⟨p.1, p.2.length⟩ : ImageSourceChunk)))).isEmpty then []
         else [(srcInfo, missingChunks srcInfo.Size.toNat
              ((dest.current srcInfo).pieces.map
                (fun p => (⟨p.1, p.2.length⟩ : ImageSourceChunk))))])) ∧
    (∀ (m : Type → Type) [Monad m] (dest : PartialStore) (stream : ImageSourceSeekable m)
        (srcInfo : BlobInfo) (cache : BlobInfoCache), 0 ≤ srcInfo.Size →
      missingChunks srcInfo.Size.toNat
        ((dest.current srcInfo).pieces.map
          (fun p => (⟨p.1, p.2.length⟩ : ImageSourceChunk))) ≠ [] →
      PutBlobPartial dest stream srcInfo cache =
        (stream.GetBlobAt srcInfo (missingChunks srcInfo.Size.toNat
            ((dest.current srcInfo).pieces.map
              (fun p => (⟨p.1, p.2.length⟩ : ImageSourceChunk)))) >>= fun r =>
          pure (storeArrivals dest srcInfo (dest.current srcInfo)
            (missingChunks srcInfo.Size.toNat
              ((dest.current srcInfo).pieces.map
                (fun p => (⟨p.1, p.2.length⟩ : ImageSourceChunk)))) r))) ∧
    (∀ stored : List ImageSourceChunk,
      (∀ x, (x < 1000 ∧ ∀ r ∈ stored, ¬ r.covers x) ↔ (200 ≤ x ∧ x < 500)) →
        missingChunks 1000 stored = [⟨200, 300⟩]) ∧
    (PutBlobPartial store1000 (recordingSource answerOnes) info1000 emptyCache).calls =
      [(info1000, [⟨200, 300⟩])] := by
  refine ⟨fun size stored => ⟨missingChunks_covers size stored,
    (missingChunks_separated size stored).1, (missingChunks_separated size stored).2⟩,
    fun dest answer srcInfo cache hsize => ?_,
    fun m _ dest stream srcInfo cache hsize hne => ?_, fun stored h => ?_, ?_⟩
  · rw [PutBlobPartial_recorded_calls, blobExtent_of_known srcInfo hsize]
    rfl
  · have hne' : (missingChunks srcInfo.Size.toNat
        (storedRanges (dest.current srcInfo).pieces)).isEmpty = false := by
      cases hmc : missingChunks srcInfo.Size.toNat
          (storedRanges (dest.current srcInfo).pieces) with
      | nil => exact absurd hmc hne
      | cons _ _ => rfl
    simp only [PutBlobPartial, blobExtent_of_known srcInfo hsize, hne']
    rfl
  · have := WellSeparated.eq_singleton 1000 200 500 (missingChunks 1000 stored)
      (missingChunks_separated 1000 stored) (by decide)
      (fun x => (missingChunks_covers 1000 stored x).trans (h x))
    simpa using this
  · have hcur : storedRanges (store1000.current info1000).pieces =
        [⟨0, 200⟩, ⟨500, 500⟩] := by
      simp only [PartialStore.current, PartialStore.lookup, store1000, storedRanges,
        List.find?_cons, decide_True, Option.getD_some, List.map_cons, List.map_nil,
        List.length_replicate]
    have hext : blobExtent info1000 = 1000 := by simp [blobExtent, info1000]
    have hm : missingChunks 1000 [⟨0, 200⟩, ⟨500, 500⟩] = [⟨200, 300⟩] := by decide
    rw [PutBlobPartial_recorded_calls, hcur, hext, hm]
    rfl

/-- C10: for every `BadPartialRequestError` value `e`, `e.Error()` is exactly
`e.Status`; an empty status gives the empty message, and two errors have the
same message if and only if they have the same status (which, the struct
having one field, is when they are the same value). -/
theorem BadPartialRequestError.error_eq_status :
    (∀ e : BadPartialRequestError, e.Error = e.Status) ∧
    (∀ e : BadPartialRequestError, e.Status = "" → e.Error = "") ∧
    (∀ e₁ e₂ : BadPartialRequestError, e₁.Error = e₂.Error ↔ e₁.Status = e₂.Status) ∧
    (∀ e₁ e₂ : BadPartialRequestError, e₁.Error = e₂.Error ↔ e₁ = e₂) := by
  refine ⟨fun _ => rfl, fun e h => ?_, fun _ _ => Iff.rfl, fun e₁ e₂ => ?_⟩
  · simpa [BadPartialRequestError.Error] using h
  · cases e₁
    cases e₂
    simp [BadPartialRequestError.Error]

/-- C9, as stated, fails: the chunk with `Offset = 2^64 - 1` and `Length = 1`
is a value of the type, and its end computed modulo `2^64` is `0`, below its
offset. -/
theorem ImageSourceChunk.end_wraps_at_max :
    ¬ (∀ c : ImageSourceChunk, c.inRange →
        c.Offset ≤ (c.Offset + c.Length) % uint64Size) := by
  intro h
  have h1 := h ⟨18446744073709551615, 1⟩ (by decide)
  revert h1
  decide

/-- C9, amended: for every `ImageSourceChunk` whose fields are `uint64`
values, the end `Offset + Length` computed modulo `2^64` is at least `Offset`
exactly when `Offset + Length` is below `2^64`; in that case the computed end
is the exact sum. -/
theorem ImageSourceChunk.end_no_wrap_iff (c : ImageSourceChunk) (h : c.inRange) :
    (c.Offset ≤ (c.Offset + c.Length) % uint64Size ↔ c.Offset + c.Length < uint64Size) ∧
    (c.Offset + c.Length < uint64Size →
      (c.Offset + c.Length) % uint64Size = c.Offset + c.Length) := by
  obtain ⟨hO, hL⟩ := h
  refine ⟨⟨fun hle => ?_, fun hlt => ?_⟩, fun hlt => Nat.mod_eq_of_lt hlt⟩
  · by_contra hge
    have hge' : uint64Size ≤ c.Offset + c.Length := Nat.le_of_not_lt hge
    have hsub : c.Offset + c.Length - uint64Size < uint64Size := by omega
    have hmod : (c.Offset + c.Length) % uint64Size = c.Offset + c.Length - uint64Size := by
      rw [Nat.mod_eq_sub_mod hge', Nat.mod_eq_of_lt hsub]
    rw [hmod] at hle
    omega
  · rw [Nat.mod_eq_of_lt hlt]
    exact Nat.le_add_right _ _

/-- Witness of C9 amended at the chunk `{Offset: 200, Length: 300}`. -/
theorem ImageSourceChunk.end_no_wrap_iff_witness :
    (200 ≤ (200 + 300) % uint64Size ↔ 200 + 300 < uint64Size) ∧
    (200 + 300 < uint64Size → (200 + 300) % uint64Size = 200 + 300) :=
  ImageSourceChunk.end_no_wrap_iff ⟨200, 300⟩ (by decide)

/-- C4, as stated, fails: `PutBlobOptions{IsConfig: true, LayerIndex: &0}` is
a value of the struct. -/
theorem PutBlobOptions.config_with_layer_index :
    ¬ (∀ o : PutBlobOptions, o.IsConfig = true → o.LayerIndex = none) := by
  intro h
  have h1 := h { IsConfig := true, LayerIndex := some 0 } rfl
  simp at h1

/-- C4, amended: the struct does not tie `LayerIndex` to `IsConfig`.  A
`PutBlobOptions` literal that sets `Cache`, `IsConfig` and `EmptyLayer` and does
not name `LayerIndex` has `LayerIndex` nil, for a config blob as for any other;
assigning `IsConfig` afterwards leaves `LayerIndex` as it was, and assigning
`LayerIndex` leaves `IsConfig` as it was. -/
theorem PutBlobOptions.layer_index_unset_is_nil :
    (∀ (cache : Option BlobInfoCache) (isConfig emptyLayer : Bool),
      ({ Cache := cache, IsConfig := isConfig, EmptyLayer := emptyLayer } :
        PutBlobOptions).LayerIndex = none) ∧
    (∀ (o : PutBlobOptions) (isConfig : Bool),
      ({ o with IsConfig := isConfig }).LayerIndex = o.LayerIndex) ∧
    (∀ (o : PutBlobOptions) (layerIndex : Option Int),
      ({ o with LayerIndex := layerIndex }).IsConfig = o.IsConfig) :=
  ⟨fun _ _ _ => rfl, fun _ _ => rfl, fun _ _ => rfl⟩

end Private

